import Mathlib

/-!
# Verification of the chairvise-backend CSV analyzers

Shallow embedding of the three analyzers in the repository source file
(`getAuthorInfo`, `getReviewInfo`, `getSubmissionInfo`) together with the
helper behaviour they rely on, and proofs settling the frozen claims.

Modelling conventions:

* JavaScript numbers are modelled as exact rationals `ℚ`.  A value of type
  `Option ℚ` models a JS number that may be non-finite: `none` stands for
  `NaN` (or an infinity produced by division by zero), `some q` for the
  finite value `q`.  The source arithmetic in scope stays well inside the
  range where IEEE doubles behave like exact arithmetic at the granularity
  the claims inspect (one decimal digit for the bucket indices).
* A JS computation that can throw (for example `undefined.split` or
  `Array.prototype.reduce` on an empty array with no initial value) is
  modelled in the `Option` monad at the analyzer level: the analyzer
  returns `none` when the corresponding JS call would throw.
* JS objects used as string-keyed maps are modelled as association lists
  in first-occurrence key order; object property access is `lookupKey`.
* The repository module `./util` (`fillRange`, `sum`,
  `getSortedArrayFromMapUsingCount`, `getSortedArrayFromMapUsingKey`) is
  not part of the provided sources; those four definitions are modelled
  from the specification (their doc comments say so).  Everything else is
  translated from the source file.
-/

namespace Chairvise

/-! ## Exact rational arithmetic that the kernel can evaluate

The `Rat` arithmetic instances in the ambient library are `irreducible`,
so concrete inputs could not be checked by `decide` through them.  The
definitions below implement the same operations through the reducible
smart constructors `mkRat` / `Rat.divInt`; bridge lemmas relate them to
the ordinary field operations. -/

/-- Addition on `ℚ`, kernel-reducible. -/
def qAdd (a b : ℚ) : ℚ := mkRat (a.num * b.den + b.num * a.den) (a.den * b.den)

/-- Multiplication on `ℚ`, kernel-reducible. -/
def qMul (a b : ℚ) : ℚ := mkRat (a.num * b.num) (a.den * b.den)

/-- Division on `ℚ`, kernel-reducible (`qDiv a 0 = 0`, as for `Rat` division). -/
def qDiv (a b : ℚ) : ℚ := Rat.divInt (a.num * b.den) ((a.den : ℤ) * b.num)

/-- Floor of a rational as an integer, kernel-reducible. -/
def ratFloor (q : ℚ) : ℤ := Int.fdiv q.num q.den

/-! ## The NaN-propagating JS number layer -/

/-- JS addition: `none` models a non-finite operand and propagates. -/
def jsAdd (a b : Option ℚ) : Option ℚ :=
  match a, b with
  | some x, some y => some (qAdd x y)
  | _, _ => none

/-- JS multiplication with NaN propagation. -/
def jsMul (a b : Option ℚ) : Option ℚ :=
  match a, b with
  | some x, some y => some (qMul x y)
  | _, _ => none

/-- JS division: NaN operands propagate, and a zero divisor produces a
non-finite result (`NaN` for `0/0`, an infinity otherwise), modelled
uniformly as `none`. -/
def jsDiv (a b : Option ℚ) : Option ℚ :=
  match a, b with
  | some x, some y => if y = 0 then none else some (qDiv x y)
  | _, _ => none

/-- Model of `list.reduce(sum)` where `sum` is the repository util fold.
Modelled from the spec: `sum(sequence)` is a numeric fold (§4.2), so the
operand strings of the source are coerced to numbers; `Array.prototype.reduce`
with no initial value throws on an empty array, modelled by the outer
`none`. -/
def jsReduceSum : List (Option ℚ) → Option (Option ℚ)
  | [] => none
  | x :: xs => some (xs.foldl jsAdd x)

/-! ## Character and string helpers (JS string methods used by the source) -/

/-- Is this character matched by the character class in the regex `[\r\n]+`. -/
def isNL (c : Char) : Bool := c = '\r' ∨ c = '\n'

/-- Model of `String.prototype.split(/[\r\n]+/)`: split on maximal runs of
carriage returns and newlines, keeping leading and trailing empty pieces,
as the JS regex split does. -/
def splitRuns : List Char → List (List Char)
  | [] => [[]]
  | c :: rest =>
    let r := splitRuns rest
    if isNL c then
      match rest with
      | d :: _ => if isNL d then r else [] :: r
      | [] => [] :: r
    else
      match r with
      | t :: ts => (c :: t) :: ts
      | [] => [[c]]

/-- Model of `String.prototype.split(': ')` (two-character separator,
leftmost non-overlapping matches). -/
def splitColonSpace : List Char → List (List Char)
  | [] => [[]]
  | ':' :: ' ' :: rest => [] :: splitColonSpace rest
  | c :: rest =>
    match splitColonSpace rest with
    | t :: ts => (c :: t) :: ts
    | [] => [[c]]

/-- Model of `String.prototype.split(sep)` for a one-character separator. -/
def splitChar (sep : Char) : List Char → List (List Char)
  | [] => [[]]
  | c :: rest =>
    if c = sep then [] :: splitChar sep rest
    else
      match splitChar sep rest with
      | t :: ts => (c :: t) :: ts
      | [] => [[c]]

/-- Model of `String.prototype.replace(pat, ',')` with a plain-string
pattern: only the first occurrence is replaced. -/
def replaceFirstWithComma (pat : List Char) : List Char → List Char
  | [] => []
  | c :: rest =>
    if pat.isPrefixOf (c :: rest) then ',' :: (c :: rest).drop pat.length
    else c :: replaceFirstWithComma pat rest

/-- Model of `String.prototype.trim` (whitespace stripped from both ends). -/
def jsTrim (l : List Char) : List Char :=
  ((l.dropWhile Char.isWhitespace).reverse.dropWhile Char.isWhitespace).reverse

/-- Model of `String.prototype.toLowerCase` on the ASCII range used by the
data (`Char.toLower` lowers exactly the ASCII uppercase letters). -/
def lowerStr (s : String) : String := ⟨s.data.map Char.toLower⟩

/-- Model of `submitTime.split(' ')[0]`: the prefix before the first space. -/
def jsDateOf (s : String) : String := ⟨s.data.takeWhile (· ≠ ' ')⟩

/-! ## JS `Number(...)` coercion for the numeric strings in scope -/

/-- Numeric value of a digit run; `none` if a non-digit appears. -/
def digitsVal : List Char → Option ℕ
  | [] => some 0
  | c :: rest =>
    if c.isDigit then
      (digitsVal rest).map (fun n => (c.toNat - 48) * 10 ^ rest.length + n)
    else none

/-- Model of JS `Number(str)` on unsigned decimal numerals:
`"12"`, `"12.5"`, `".5"`, `"5."`.  `none` models `NaN`. -/
def jsNumberUnsigned (l : List Char) : Option ℚ :=
  let ip := l.takeWhile (· ≠ '.')
  match l.dropWhile (· ≠ '.') with
  | [] =>
    if ip = [] then none
    else (digitsVal ip).map (fun n => (n : ℚ))
  | _ :: fp =>
    if ip = [] ∧ fp = [] then none
    else
      match digitsVal ip, digitsVal fp with
      | some n, some f => some (qAdd (n : ℚ) (mkRat f (10 ^ fp.length)))
      | _, _ => none

/-- Model of JS `Number(str)` (string-to-number coercion) for the decimal
numerals this data contains: optional surrounding whitespace, optional
sign, decimal digits with an optional point.  The empty string coerces to
`0`; anything malformed is `NaN` (`none`).  Exponent notation is out of
scope for this data. -/
def jsNumber (s : String) : Option ℚ :=
  let t := jsTrim s.data
  match t with
  | [] => some 0
  | '-' :: rest => (jsNumberUnsigned rest).map (fun q => qMul (-1 : ℤ) q)
  | '+' :: rest => jsNumberUnsigned rest
  | _ => jsNumberUnsigned t

/-! ## String-keyed maps as association lists (JS objects) -/

/-- Property access `obj[k]` on a JS object modelled as an association
list: the first binding of the key, if any. -/
def lookupKey {β : Type} (k : String) : List (String × β) → Option β
  | [] => none
  | p :: ps => if p.1 = k then some p.2 else lookupKey k ps

/-- One step of `_.countBy`: increment the count of `k`, first-occurrence
key order (new keys are appended). -/
def bumpKey : List (String × ℕ) → String → List (String × ℕ)
  | [], k => [(k, 1)]
  | p :: ps, k => if p.1 = k then (p.1, p.2 + 1) :: ps else p :: bumpKey ps k

/-- Model of `_.countBy(items)`: frequency map in first-occurrence key
order. -/
def countBy (l : List String) : List (String × ℕ) := l.foldl bumpKey []

/-- One step of `_.groupBy`: append `x` to the group of its key,
first-occurrence key order. -/
def groupIns {α : Type} (key : α → String) : List (String × List α) → α → List (String × List α)
  | [], x => [(key x, [x])]
  | p :: ps, x => if p.1 = key x then (p.1, p.2 ++ [x]) :: ps else p :: groupIns key ps x

/-- Model of `_.groupBy(items, k)` (the source composes it with the
identity `_.mapValues`): groups in first-occurrence key order, each group
in input order.  The source then iterates the object with `for..in`;
the claims settled here do not depend on that iteration order (JS
reorders integer-like keys), so first-occurrence order is used. -/
def groupBy {α : Type} (key : α → String) (l : List α) : List (String × List α) :=
  l.foldl (groupIns key) []

/-- Sequencing of a fallible map over a list, modelling a JS loop whose
body may throw: the first throw aborts the whole call. -/
def mapMOpt {α β : Type} (f : α → Option β) : List α → Option (List β)
  | [] => some []
  | x :: xs =>
    match f x with
    | none => none
    | some y => (mapMOpt f xs).map (fun ys => y :: ys)

/-- Total count contributed by the entries of a frequency map whose key
satisfies `p` (specification device for the cumulative time series). -/
def sumSnd (p : String → Bool) (l : List (String × ℕ)) : ℕ :=
  ((l.filter (fun q => p q.1)).map (fun q => q.2)).sum

/-! ## Kernel-reducible lexicographic order on strings

The ambient decidable instances for `String` order go through the
byte-level iterator and do not reduce in the kernel, so the sort key
comparison is implemented directly on the character lists and related to
the standard order by `strLe_iff` below. -/

/-- Lexicographic strict order test on character lists, mirroring the
`List.lt` relation. -/
def lexLt : List Char → List Char → Bool
  | [], [] => false
  | [], _ :: _ => true
  | _ :: _, [] => false
  | a :: as, b :: bs => if a < b then true else if b < a then false else lexLt as bs

/-- Total order test on strings: `strLe a b` decides `a ≤ b`. -/
def strLe (a b : String) : Bool := !(lexLt b.data a.data)

/-! ## Stable insertion sort (kernel-reducible) -/

/-- Insert `x` in front of the first element `y` with `le x y`; keeps the
insertion stable when `le` is a total preorder test. -/
def insertLe {α : Type} (le : α → α → Bool) (x : α) : List α → List α
  | [] => [x]
  | y :: ys => if le x y then x :: y :: ys else y :: insertLe le x ys

/-- Stable insertion sort by the Boolean test `le`. -/
def sortLe {α : Type} (le : α → α → Bool) : List α → List α
  | [] => []
  | x :: xs => insertLe le x (sortLe le xs)

/-! ## The repository `./util` module, modelled from the spec -/

/-- Modelled from the spec: `util.getSortedArrayFromMapUsingKey` is absent
from the provided sources; §4.2 describes it as the ordered sequence of
`(key, count)` pairs sorted by key ascending (lexicographic for strings). -/
def getSortedArrayFromMapUsingKey (m : List (String × ℕ)) : List (String × ℕ) :=
  sortLe (fun a b => strLe a.1 b.1) m

/-- Modelled from the spec: `util.getSortedArrayFromMapUsingCount` is
absent from the provided sources; §4.2 describes it as a stable sort of
the frequency map, descending by count (ties keep first-seen order). -/
def getSortedArrayFromMapUsingCount (m : List (String × ℕ)) : List (String × ℕ) :=
  sortLe (fun a b => b.2 ≤ a.2) m

/-- Modelled from the spec: `util.fillRange(min, max, step)` is absent
from the provided sources; per §3 (Distribution Bucket Array) and the
labels the source builds from consecutive elements, it is the sequence of
bucket boundaries `min, min+step, …, max`. -/
def fillRange (a b step : ℚ) : List ℚ :=
  (List.range ((ratFloor (qDiv (qAdd b (qMul (-1 : ℤ) a)) step)).toNat + 1)).map
    (fun i => qAdd a (qMul (i : ℚ) step))

/-- The range labels the source renders as `lower + ' ~ ' + upper`
(source lines 100-105), modelled as the pairs of consecutive boundaries. -/
def distLabels (bounds : List ℚ) : List (ℚ × ℚ) := bounds.zip bounds.tail

/-! ## Return contract shared by the three analyzers (source lines 73, 164, 313) -/

/-- The `{infoType, infoData}` object every analyzer returns. -/
structure Output (α : Type) where
  infoType : String
  infoData : α
deriving DecidableEq

/-! ## Author analyzer (source lines 12-74)

The row fields are the ones `getAuthorInfo` destructures.  Rows are the
records produced by the Tabular Parser; per the parser contract
(spec §4.1, the parser is the external `papaparse` collaborator) a field
that matches no numeric or boolean pattern is kept as a string, an empty
cell as the empty string. -/

structure AuthorRow where
  firstName : String
  lastName : String
  country : String
  affiliation : String
deriving DecidableEq

/-- Parallel label/count sequences (`{labels, data}` in the source). -/
structure LabeledData where
  labels : List String
  data : List ℕ
deriving DecidableEq

structure AuthorInfoData where
  topAuthors : LabeledData
  topCountries : LabeledData
  topAffiliations : LabeledData
deriving DecidableEq

/-- The full name the source builds: `firstName + ' ' + lastName`
(source line 35). -/
def authorName (r : AuthorRow) : String := r.firstName ++ " " ++ r.lastName

/-- Splitting a sorted pair list into the parallel label/data arrays
(source lines 46-65). -/
def toLabeled (l : List (String × ℕ)) : LabeledData :=
  ⟨l.map (fun p => p.1), l.map (fun p => p.2)⟩

/-- Core of `getAuthorInfo` over the parsed rows (source lines 29-71). -/
def authorCore (rows : List AuthorRow) : AuthorInfoData :=
  let authors := rows.map authorName
  let countries := rows.map (fun r => r.country)
  let affiliations := rows.map (fun r => r.affiliation)
  { topAuthors := toLabeled (getSortedArrayFromMapUsingCount (countBy authors))
    topCountries := toLabeled (getSortedArrayFromMapUsingCount (countBy countries))
    topAffiliations := toLabeled (getSortedArrayFromMapUsingCount (countBy affiliations)) }

/-- `getAuthorInfo` (source lines 12-74), as a function of the parsed rows. -/
def getAuthorInfo (rows : List AuthorRow) : Output AuthorInfoData :=
  ⟨"author", authorCore rows⟩

/-! ## Review analyzer (source lines 76-165) -/

/-- The review-row fields `getReviewInfo` uses: the group key and the
structured `scores` text block. -/
structure ReviewRow where
  paperId : String
  scores : String
deriving DecidableEq

/-- The three values the per-review parse produces (source lines 121-134):
`score` and `confidence` are strings fed to numeric contexts (`none` =
`NaN` when malformed), `recommend` is already `1` or `0`. -/
structure ParsedReview where
  score : Option ℚ
  confidence : Option ℚ
  recommend : ℚ
deriving DecidableEq

/-- Helper: `String` version of `split(/[\r\n]+/)`. -/
def splitNL (s : String) : List String := (splitRuns s.data).map (fun l => ⟨l⟩)

/-- Helper: `String` version of `split(': ')`. -/
def splitCS (s : String) : List String := (splitColonSpace s.data).map (fun l => ⟨l⟩)

/-- Parse of one review's `scores` block (source lines 121-134).
If the block has a single line, `evaluation[1]` is `undefined` and the
`.split` on it throws: that is the `none` result.  A missing `': '`
payload on line 1 or 2 flows into the numeric context as `undefined`,
giving `NaN`; a missing third line defaults `recommend` to `0`. -/
def parseReview (scores : String) : Option ParsedReview :=
  let evaluation := splitNL scores
  match evaluation.get? 1 with
  | none => none
  | some e1 =>
    let score := ((splitCS (evaluation.headD "")).get? 1).bind jsNumber
    let confidence := ((splitCS e1).get? 1).bind jsNumber
    let recommend : ℚ :=
      if 2 < evaluation.length then
        if ((splitCS (evaluation.getD 2 "")).getD 1 "") = "yes" then 1 else 0
      else 0
    some ⟨score, confidence, recommend⟩

/-- The per-submission aggregates of one group iteration
(source lines 137-144). -/
structure GroupStats where
  score : Option ℚ
  recommend : Option ℚ
  avgConfidence : Option ℚ
deriving DecidableEq

/-- One iteration of the per-submission loop (source lines 112-145),
as a function of the group's `scores` blocks: parse each review, then
form the confidence-weighted score and recommend and the average
confidence.  `none` models a thrown error (malformed block, or
`reduce` on an empty group). -/
def analyzeGroup (blocks : List String) : Option GroupStats :=
  match mapMOpt parseReview blocks with
  | none => none
  | some parsed =>
    let confidences := parsed.map (fun p => p.confidence)
    let weightedScores := parsed.map (fun p => jsMul p.score p.confidence)
    let weightedRecommends := parsed.map (fun p => jsMul (some p.recommend) p.confidence)
    match jsReduceSum confidences with
    | none => none
    | some confidenceSum =>
      match jsReduceSum weightedScores, jsReduceSum weightedRecommends with
      | some ws, some wr =>
        some { score := jsDiv ws confidenceSum
               recommend := jsDiv wr confidenceSum
               avgConfidence := jsDiv confidenceSum (some (confidences.length : ℚ)) }
      | _, _ => none

/-- Model of `((w + 3) / 0.25).toFixed(1)` re-coerced by `Math.min`:
rounding to one decimal, half away from zero for the non-negative values
in range (JS picks the larger candidate at a tie, as `ratFloor (q*10 + 1/2)`
does). -/
def jsToFixed1 (q : ℚ) : ℚ := mkRat (ratFloor (qAdd (qMul q 10) (mkRat 1 2))) 10

/-- The score bucket index `Math.min(((w + 3) / 0.25).toFixed(1), 23)`
(source line 146).  Note the source rounds with `toFixed(1)`; it does not
floor. -/
def scoreColumn (w : ℚ) : ℚ := min (jsToFixed1 (qDiv (qAdd w 3) (mkRat 1 4))) 23

/-- The recommend bucket index `Math.min((w / 0.1).toFixed(1), 9)`
(source line 147). -/
def recommendColumn (w : ℚ) : ℚ := min (jsToFixed1 (qDiv w (mkRat 1 10))) 9

/-- Model of `counts[column] += 1` on a JS array (source lines 148-149).
An integer index inside the array updates that slot.  A `NaN`, negative
or fractional index addresses a non-index property of the array object,
so every array slot stays unchanged (and the stray property never shows
in the serialized counts); an index beyond the length cannot occur here
because of the `Math.min` clamp. -/
def bumpAt (counts : List ℚ) (idx : Option ℚ) : List ℚ :=
  match idx with
  | none => counts
  | some q =>
    if q.den = 1 ∧ 0 ≤ q.num ∧ q.num.toNat < counts.length then
      counts.set q.num.toNat (qAdd (counts.getD q.num.toNat 0) 1)
    else counts

/-- One entry of `submissionIDReviewMap` (source line 151). -/
structure ScoreRec where
  score : Option ℚ
  recommend : Option ℚ
deriving DecidableEq

/-- The `{score, recommend}` record stored per submission
(source line 151). -/
def scoreRecOf (st : GroupStats) : ScoreRec := ⟨st.score, st.recommend⟩

/-- A `{labels, counts}` distribution (source lines 160-161). -/
structure Distribution where
  labels : List (ℚ × ℚ)
  counts : List ℚ
deriving DecidableEq

structure ReviewInfoData where
  IDReviewMap : List (String × ScoreRec)
  scoreList : List (Option ℚ)
  meanScore : Option ℚ
  meanConfidence : Option ℚ
  recommendList : List (Option ℚ)
  scoreDistribution : Distribution
  recommendDistribution : Distribution
deriving DecidableEq

/-- Core of `getReviewInfo` over the parsed rows (source lines 93-162).
The counts arrays start as the `fillRange` boundary arrays themselves
(source lines 94-95) and are incremented in place. -/
def reviewCore (rows : List ReviewRow) : Option ReviewInfoData :=
  let groups := groupBy (fun r => r.paperId) rows
  match mapMOpt
      (fun p => (analyzeGroup (p.2.map (fun r => r.scores))).map (fun st => (p.1, st)))
      groups with
  | none => none
  | some stats =>
    let scoreList := stats.map (fun p => p.2.score)
    let recommendList := stats.map (fun p => p.2.recommend)
    let confidenceList := stats.map (fun p => p.2.avgConfidence)
    let scoreCounts :=
      stats.foldl (fun c p => bumpAt c ((p.2.score).map scoreColumn))
        (fillRange (-3) 3 (mkRat 1 4))
    let recommendCounts :=
      stats.foldl (fun c p => bumpAt c ((p.2.recommend).map recommendColumn))
        (fillRange 0 1 (mkRat 1 10))
    match jsReduceSum scoreList, jsReduceSum confidenceList with
    | some s, some c =>
      some { IDReviewMap := stats.map (fun p => (p.1, scoreRecOf p.2))
             scoreList := scoreList
             meanScore := jsDiv s (some (scoreList.length : ℚ))
             meanConfidence := jsDiv c (some (confidenceList.length : ℚ))
             recommendList := recommendList
             scoreDistribution := ⟨distLabels (fillRange (-3) 3 (mkRat 1 4)), scoreCounts⟩
             recommendDistribution := ⟨distLabels (fillRange 0 1 (mkRat 1 10)), recommendCounts⟩ }
    | _, _ => none

/-- `getReviewInfo` (source lines 76-165) as a function of the parsed
rows; `none` models a thrown error escaping the call. -/
def getReviewInfo (rows : List ReviewRow) : Option (Output ReviewInfoData) :=
  (reviewCore rows).map (fun d => ⟨"review", d⟩)

/-! ## Submission analyzer (source lines 167-314) -/

/-- The submission-row fields `getSubmissionInfo` uses
(`lastUpdateTime` is carried but, notably, never read by the source). -/
structure SubmissionRow where
  trackName : String
  authors : String
  submitTime : String
  lastUpdateTime : String
  keywords : String
  decision : String
deriving DecidableEq

/-- One time-series point `{x: date, y: cumulativeCount}` (source
lines 240, 247). -/
structure TimePoint where
  x : String
  y : ℕ
deriving DecidableEq

/-- The cumulative running total over date-sorted counts (source lines
236-248): `cumul pairs acc` emits one point per pair, `y` being the
running sum of counts starting from `acc`. -/
def cumul : List (String × ℕ) → ℕ → List TimePoint
  | [], _ => []
  | p :: ps, acc => ⟨p.1, acc + p.2⟩ :: cumul ps (acc + p.2)

/-- The keyword list of a row: `row.keywords.split(/[\r\n]+/)` lower-cased
(source lines 195, 198, 201, 268). -/
def keywordsOf (r : SubmissionRow) : List String := (splitNL r.keywords).map lowerStr

/-- The author-name list of a row:
`row.authors.replace(' and ', ',').split(',').map(trim)` — JS `replace`
with a string pattern rewrites only the first occurrence (source lines
199, 271). -/
def authorsOf (r : SubmissionRow) : List String :=
  (splitChar ',' (replaceFirstWithComma " and ".data r.authors.data)).map
    (fun l => (⟨jsTrim l⟩ : String))

/-- The `{names, counts}` pair for top accepted authors (source lines
216-219, 284-287). -/
structure NamesCounts where
  names : List String
  counts : List ℕ
deriving DecidableEq

/-- Splitting a sorted pair list into parallel name/count arrays
(source lines 209-214, 277-282). -/
def namesCountsOf (l : List (String × ℕ)) : NamesCounts :=
  ⟨l.map (fun p => p.1), l.map (fun p => p.2)⟩

/-- The hardcoded historical comparison table (source lines 254-258):
nine years, eight past rates per listed track; the current batch's rate
is appended per matching track group. -/
structure ComparableTable where
  year : List ℕ
  fullPapers : List (Option ℚ)
  shortPapers : List (Option ℚ)
deriving DecidableEq

/-- The table literal of source lines 254-258 (decimal literals as exact
rationals). -/
def baseComparableTable : ComparableTable :=
  { year := [2010, 2011, 2012, 2013, 2014, 2015, 2016, 2017, 2018]
    fullPapers :=
      [mkRat 29 100, mkRat 28 100, mkRat 27 100, mkRat 29 100,
       mkRat 29 100, mkRat 30 100, mkRat 29 100, mkRat 30 100].map some
    shortPapers :=
      [mkRat 29 100, mkRat 37 100, mkRat 31 100, mkRat 31 100,
       mkRat 32 100, mkRat 50 100, mkRat 35 100, mkRat 32 100].map some }

/-- The acceptance rate of one track group,
`acceptedPapersThisTrack.length / group.length` (source lines 289, 292). -/
def trackRate (g : List SubmissionRow) : Option ℚ :=
  jsDiv (some ((g.filter (fun r => r.decision = "accept")).length : ℚ))
    (some (g.length : ℚ))

/-- One iteration of the per-track loop's historical-table update
(source lines 291-293): append the track's rate when the track is one of
the two listed names. -/
def comparableStep (t : ComparableTable) (p : String × List SubmissionRow) : ComparableTable :=
  if p.1 = "Full Papers" then { t with fullPapers := t.fullPapers ++ [trackRate p.2] }
  else if p.1 = "Short Papers" then { t with shortPapers := t.shortPapers ++ [trackRate p.2] }
  else t

structure SubmissionInfoData where
  acceptanceRate : Option ℚ
  overallKeywordMap : List (String × ℕ)
  overallKeywordList : List (String × ℕ)
  acceptedKeywordMap : List (String × ℕ)
  acceptedKeywordList : List (String × ℕ)
  rejectedKeywordMap : List (String × ℕ)
  rejectedKeywordList : List (String × ℕ)
  keywordsByTrack : List (String × List (String × ℕ))
  acceptanceRateByTrack : List (String × Option ℚ)
  topAcceptedAuthors : NamesCounts
  topAuthorsByTrack : List (String × NamesCounts)
  timeSeries : List TimePoint
  lastEditSeries : List TimePoint
  comparableAcceptanceRate : ComparableTable
deriving DecidableEq

/-- Core of `getSubmissionInfo` over the parsed rows (source lines
183-311).  The accepted/rejected partitions come from the case-sensitive
`===` comparisons of lines 193 and 196; both time lists are built from
`row.submitTime` (lines 203-204: the source never reads
`lastUpdateTime`); the comparable table is rebuilt from its literal on
every call. -/
def submissionCore (rows : List SubmissionRow) : SubmissionInfoData :=
  let rejectedSubs := rows.filter (fun r => r.decision = "reject")
  let acceptedSubs := rows.filter (fun r => r.decision = "accept")
  let rejectedKeywords := (rejectedSubs.map keywordsOf).flatten
  let acceptedKeywords := (acceptedSubs.map keywordsOf).flatten
  let acceptedAuthorNames := (acceptedSubs.map authorsOf).flatten
  let allKeywords := (rows.map keywordsOf).flatten
  let submissionTimes := rows.map (fun r => jsDateOf r.submitTime)
  let lastUpdateTimes := rows.map (fun r => jsDateOf r.submitTime)
  let acceptedKeywordMap := countBy acceptedKeywords
  let rejectedKeywordMap := countBy rejectedKeywords
  let overallKeywordMap := countBy allKeywords
  let groups := groupBy (fun r => r.trackName) rows
  { acceptanceRate := jsDiv (some (acceptedSubs.length : ℚ)) (some (rows.length : ℚ))
    overallKeywordMap := overallKeywordMap
    overallKeywordList := getSortedArrayFromMapUsingCount overallKeywordMap
    acceptedKeywordMap := acceptedKeywordMap
    acceptedKeywordList := getSortedArrayFromMapUsingCount acceptedKeywordMap
    rejectedKeywordMap := rejectedKeywordMap
    rejectedKeywordList := getSortedArrayFromMapUsingCount rejectedKeywordMap
    keywordsByTrack := groups.map (fun p =>
      (p.1, getSortedArrayFromMapUsingCount (countBy ((p.2.map keywordsOf).flatten))))
    acceptanceRateByTrack := groups.map (fun p => (p.1, trackRate p.2))
    topAcceptedAuthors := namesCountsOf (getSortedArrayFromMapUsingCount (countBy acceptedAuthorNames))
    topAuthorsByTrack := groups.map (fun p =>
      (p.1, namesCountsOf (getSortedArrayFromMapUsingCount
        (countBy (((p.2.filter (fun r => r.decision = "accept")).map authorsOf).flatten)))))
    timeSeries := cumul (getSortedArrayFromMapUsingKey (countBy submissionTimes)) 0
    lastEditSeries := cumul (getSortedArrayFromMapUsingKey (countBy lastUpdateTimes)) 0
    comparableAcceptanceRate := groups.foldl comparableStep baseComparableTable }

/-- `getSubmissionInfo` (source lines 167-314) as a function of the
parsed rows. -/
def getSubmissionInfo (rows : List SubmissionRow) : Output SubmissionInfoData :=
  ⟨"submission", submissionCore rows⟩

/-! ## The header-override preprocessing step (source lines 17-20, 172-175) -/

/-- Index of the first carriage return in a character list, `-1` when
absent, as `indexOf` answers. -/
def indexOfCr : List Char → ℤ
  | [] => -1
  | c :: rest =>
    if c = '\r' then 0
    else if indexOfCr rest = -1 then -1 else indexOfCr rest + 1

/-- Model of `content.indexOf('\r')` (the data in scope is ASCII, so JS
UTF-16 code-unit positions and character positions agree). -/
def jsIndexOfCr (s : String) : ℤ := indexOfCr s.data

/-- Model of `content.substring(i)` for `i ≥ -1 + 1` (JS clamps negative
starts to `0`, as `Int.toNat` does). -/
def jsSubstringFrom (s : String) (i : ℤ) : String := ⟨s.data.drop i.toNat⟩

/-- The header-override step shared by `getAuthorInfo` (lines 18-20) and
`getSubmissionInfo` (lines 173-175): prepend the fixed header and keep
everything after the first carriage return of the original text. -/
def headerOverride (header content : String) : String :=
  header ++ "\r" ++ jsSubstringFrom content (jsIndexOfCr content + 1)

/-- The fixed author header of source line 19. -/
def authorHeader : String :=
  "submissionId, firstName, lastName, email, country, affiliation, page, personId, corresponding"

/-- The fixed submission header of source line 174. -/
def submissionHeader : String :=
  "submissionId, trackId, trackName, title, authors, submitTime, lastUpdateTime, formFields, keywords, decision, notified, reviewsSent, abstract"

/-! ## Concrete inputs used by the claim scenarios -/

/-- The apostrophe character, assembled from its code point. -/
def apos : String := ⟨[Char.ofNat 39]⟩

/-- The first scores block of the Review Analyzer scenario (spec §8). -/
def blockA : String :=
  "Overall evaluation: 2\nReviewer" ++ apos ++ "s confidence: 4\nRecommend for best paper: yes"

/-- The second scores block of the Review Analyzer scenario (spec §8). -/
def blockB : String :=
  "Overall evaluation: -1\nReviewer" ++ apos ++ "s confidence: 2\nRecommend for best paper: no"

/-- A scores block with score 0 and confidence 2. -/
def blockC : String :=
  "Overall evaluation: 0\nReviewer" ++ apos ++ "s confidence: 2\nRecommend for best paper: no"

/-- A scores block with score 1 and confidence 1. -/
def blockD : String :=
  "Overall evaluation: 1\nReviewer" ++ apos ++ "s confidence: 1\nRecommend for best paper: no"

/-- The Review Analyzer scenario batch: one submission, two reviews. -/
def demoReviewBatch1 : List ReviewRow := [⟨"1", blockA⟩, ⟨"1", blockB⟩]

/-- A review batch whose single submission has weighted score `1/3`
(= (0·2 + 1·1) / 3), exercising the fractional bucket column. -/
def demoReviewBatch2 : List ReviewRow := [⟨"1", blockC⟩, ⟨"1", blockD⟩]

/-- The Submission Analyzer scenario: two rows, same track, one accepted
and one rejected. -/
def demoTracks : List SubmissionRow :=
  [⟨"T", "Alice Prime", "2020-01-01 10:00", "2020-01-01 10:00", "kw", "accept"⟩,
   ⟨"T", "Bob Second", "2020-01-01 11:00", "2020-01-01 11:00", "kw", "reject"⟩]

/-- The time-series scenario: submit times over two distinct dates. -/
def demoTimes : List SubmissionRow :=
  [⟨"T", "A One", "2020-01-01 10:00", "2020-01-01 10:00", "kw", "accept"⟩,
   ⟨"T", "B Two", "2020-01-01 11:00", "2020-01-01 11:00", "kw", "reject"⟩,
   ⟨"T", "C Three", "2020-01-02 09:00", "2020-01-02 09:00", "kw", "accept"⟩]

/-- An author row with an empty first name and empty country. -/
def demoAuthorRow : AuthorRow := ⟨"", "Doe", "", "MIT"⟩

/-! ## Bridge lemmas: the kernel-reducible arithmetic agrees with `ℚ` -/

theorem qAdd_eq (a b : ℚ) : qAdd a b = a + b := (Rat.add_def' a b).symm

theorem qMul_eq (a b : ℚ) : qMul a b = a * b := by
  rw [Rat.mul_def, Rat.normalize_eq_mkRat, qMul]

theorem qDiv_eq (a b : ℚ) : qDiv a b = a / b := by
  rw [qDiv, Rat.divInt_eq_div]
  rcases eq_or_ne b 0 with rfl | hb
  · simp
  · have hbn : (b.num : ℚ) ≠ 0 := by
      exact_mod_cast Rat.num_ne_zero.mpr hb
    have had : ((a.den : ℤ) : ℚ) ≠ 0 := by
      exact_mod_cast a.den_nz
    push_cast
    rw [div_eq_div_iff (by exact mul_ne_zero had hbn) hb]
    have h1 : (a.num : ℚ) = a * a.den := by
      rw [mul_comm]
      exact_mod_cast (Rat.den_mul_eq_num a).symm
    have h2 : (b.num : ℚ) = b * b.den := by
      rw [mul_comm]
      exact_mod_cast (Rat.den_mul_eq_num b).symm
    rw [h1, h2]
    ring

theorem ratFloor_eq (q : ℚ) : ratFloor q = ⌊q⌋ := by
  rw [Rat.floor_def, ratFloor]
  exact Int.fdiv_eq_ediv _ (by exact_mod_cast q.den_pos.le)

/-! ## Bridge lemmas: `strLe` decides the standard string order -/

theorem lexLt_iff : ∀ x y : List Char, lexLt x y = true ↔ x.lt y
  | [], [] => by
    simp only [lexLt]
    constructor
    · intro h
      cases h
    · intro h
      cases h
  | [], b :: bs => by
    simp only [lexLt]
    exact ⟨fun _ => .nil b bs, fun _ => trivial⟩
  | a :: as, [] => by
    simp only [lexLt]
    constructor
    · intro h
      cases h
    · intro h
      cases h
  | a :: as, b :: bs => by
    simp only [lexLt]
    by_cases hab : a < b
    · simp only [hab, if_true]
      exact ⟨fun _ => .head as bs hab, fun _ => trivial⟩
    · by_cases hba : b < a
      · simp only [hab, hba, if_false, if_true]
        constructor
        · intro h
          cases h
        · intro h
          cases h with
          | head _ _ h => exact absurd h hab
          | tail _ h _ => exact absurd hba h
      · simp only [hab, hba, if_false]
        rw [lexLt_iff as bs]
        constructor
        · intro h
          exact .tail hab hba h
        · intro h
          cases h with
          | head _ _ h => exact absurd h hab
          | tail _ _ h => exact h

theorem strLe_iff (a b : String) : strLe a b = true ↔ a ≤ b := by
  rw [String.le_iff_toList_le, ← not_lt]
  rw [show (strLe a b) = !(lexLt b.data a.data) from rfl, Bool.not_eq_true']
  constructor
  · intro h hlt
    have hx : lexLt b.data a.data = true :=
      (lexLt_iff _ _).mpr ((List.lt_iff_lex_lt b.data a.data).mpr hlt)
    rw [h] at hx
    exact Bool.false_ne_true hx
  · intro h
    cases hh : lexLt b.data a.data
    · rfl
    · exact absurd ((List.lt_iff_lex_lt b.data a.data).mp ((lexLt_iff _ _).mp hh)) h

/-! ## Insertion sort: permutation and sortedness -/

theorem insertLe_perm {α : Type} (le : α → α → Bool) (x : α) :
    ∀ l : List α, (insertLe le x l).Perm (x :: l)
  | [] => List.Perm.refl _
  | y :: ys => by
    rw [insertLe]
    by_cases h : le x y = true
    · rw [if_pos h]
    · rw [if_neg h]
      exact ((insertLe_perm le x ys).cons y).trans (List.Perm.swap x y ys)

theorem sortLe_perm {α : Type} (le : α → α → Bool) :
    ∀ l : List α, (sortLe le l).Perm l
  | [] => List.Perm.refl _
  | x :: xs =>
    (insertLe_perm le x (sortLe le xs)).trans ((sortLe_perm le xs).cons x)

theorem insertLe_pairwise {α : Type} {le : α → α → Bool}
    (htot : ∀ a b, le a b = true ∨ le b a = true)
    (htrans : ∀ a b c, le a b = true → le b c = true → le a c = true)
    (x : α) : ∀ {l : List α}, l.Pairwise (fun a b => le a b = true) →
      (insertLe le x l).Pairwise (fun a b => le a b = true)
  | [], _ => .cons (fun z hz => absurd hz (List.not_mem_nil z)) .nil
  | y :: ys, h => by
    rw [insertLe]
    rcases List.pairwise_cons.mp h with ⟨hy, hys⟩
    by_cases hxy : le x y = true
    · rw [if_pos hxy]
      refine List.pairwise_cons.mpr ⟨?_, h⟩
      intro z hz
      rcases List.mem_cons.mp hz with rfl | hz
      · exact hxy
      · exact htrans x y z hxy (hy z hz)
    · rw [if_neg hxy]
      have hyx : le y x = true := (htot x y).resolve_left hxy
      refine List.pairwise_cons.mpr ⟨?_, insertLe_pairwise htot htrans x hys⟩
      intro z hz
      have := (insertLe_perm le x ys).mem_iff.mp hz
      rcases List.mem_cons.mp this with rfl | hz'
      · exact hyx
      · exact hy z hz'

theorem sortLe_pairwise {α : Type} {le : α → α → Bool}
    (htot : ∀ a b, le a b = true ∨ le b a = true)
    (htrans : ∀ a b c, le a b = true → le b c = true → le a c = true) :
    ∀ l : List α, (sortLe le l).Pairwise (fun a b => le a b = true)
  | [] => List.Pairwise.nil
  | x :: xs => insertLe_pairwise htot htrans x (sortLe_pairwise htot htrans xs)

/-! ## Association-list lemmas: `lookupKey`, `bumpKey`, `countBy` -/

theorem lookupKey_map {β γ : Type} (h : β → γ) :
    ∀ (l : List (String × β)) (k : String),
      lookupKey k (l.map (fun p => (p.1, h p.2))) = (lookupKey k l).map h
  | [], _ => rfl
  | p :: ps, k => by
    simp only [List.map_cons, lookupKey]
    by_cases hk : p.1 = k
    · rw [if_pos hk, if_pos hk]
      rfl
    · rw [if_neg hk, if_neg hk]
      exact lookupKey_map h ps k

theorem lookupKey_mem {β : Type} :
    ∀ {l : List (String × β)} {k : String} {v : β}, lookupKey k l = some v → (k, v) ∈ l
  | p :: ps, k, v, h => by
    rw [lookupKey] at h
    split_ifs at h with hk
    · obtain ⟨p1, p2⟩ := p
      cases hk
      cases Option.some.inj h
      exact List.mem_cons_self _ _
    · exact List.mem_cons_of_mem _ (lookupKey_mem h)

theorem lookupKey_bumpKey : ∀ (acc : List (String × ℕ)) (d k : String),
    lookupKey k (bumpKey acc d) =
      if d = k then some ((lookupKey k acc).getD 0 + 1) else lookupKey k acc
  | [], d, k => by
    by_cases hk : d = k <;> simp [bumpKey, lookupKey, hk]
  | p :: ps, d, k => by
    rw [bumpKey]
    by_cases hpd : p.1 = d
    · rw [if_pos hpd]
      by_cases hk : p.1 = k
      · have hdk : d = k := hpd ▸ hk
        simp [lookupKey, hk, hdk]
      · have hdk : ¬ d = k := fun h => hk (hpd.trans h)
        simp [lookupKey, hk, hdk]
    · rw [if_neg hpd]
      by_cases hk : p.1 = k
      · have hdk : ¬ d = k := fun h => hpd (hk.trans h.symm)
        simp [lookupKey, hk, hdk]
      · simp [lookupKey, hk, lookupKey_bumpKey ps d k]

theorem lookupKey_countBy_go :
    ∀ (l : List String) (acc : List (String × ℕ)) (k : String),
      lookupKey k (l.foldl bumpKey acc) =
        if k ∈ l then
          some ((lookupKey k acc).getD 0 + (l.filter (fun d => decide (d = k))).length)
        else lookupKey k acc
  | [], acc, k => by simp
  | d :: ds, acc, k => by
    rw [List.foldl_cons, lookupKey_countBy_go ds (bumpKey acc d) k, lookupKey_bumpKey]
    by_cases hdk : d = k
    · subst hdk
      by_cases hmem : d ∈ ds
      · rw [if_pos hmem, if_pos (List.mem_cons_self d ds), if_pos rfl,
          List.filter_cons, if_pos (by simp), Option.getD_some, List.length_cons]
        rw [Option.some.injEq]
        omega
      · have hfil : ds.filter (fun x => decide (x = d)) = [] :=
          List.filter_eq_nil_iff.mpr (fun a ha had => hmem ((of_decide_eq_true had) ▸ ha))
        rw [if_neg hmem, if_pos rfl, if_pos (List.mem_cons_self d ds),
          List.filter_cons, if_pos (by simp), hfil]
        simp
    · have hmc : (k ∈ d :: ds) ↔ (k ∈ ds) := by
        constructor
        · intro h
          rcases List.mem_cons.mp h with rfl | h
          · exact absurd rfl hdk
          · exact h
        · exact fun h => List.mem_cons_of_mem _ h
      have hfc : (d :: ds).filter (fun x => decide (x = k)) = ds.filter (fun x => decide (x = k)) := by
        simp [List.filter_cons, hdk]
      rw [if_neg hdk, hfc]
      by_cases hmem : k ∈ ds
      · rw [if_pos hmem, if_pos (hmc.mpr hmem)]
      · rw [if_neg hmem, if_neg (fun h => hmem (hmc.mp h))]

theorem lookupKey_countBy (l : List String) (k : String) :
    lookupKey k (countBy l) =
      if k ∈ l then some ((l.filter (fun d => decide (d = k))).length) else none := by
  have := lookupKey_countBy_go l [] k
  simpa [countBy, lookupKey] using this

theorem bumpKey_keys : ∀ (acc : List (String × ℕ)) (d : String),
    (bumpKey acc d).map Prod.fst =
      if d ∈ acc.map Prod.fst then acc.map Prod.fst else acc.map Prod.fst ++ [d]
  | [], d => by simp [bumpKey]
  | p :: ps, d => by
    rw [bumpKey]
    by_cases hpd : p.1 = d
    · rw [if_pos hpd]
      have hmem : d ∈ (p :: ps).map Prod.fst := by
        simp [← hpd]
      rw [if_pos hmem]
      simp
    · rw [if_neg hpd]
      have hrec := bumpKey_keys ps d
      by_cases hmem : d ∈ ps.map Prod.fst
      · have hm : d ∈ (p :: ps).map Prod.fst := by simp [hmem]
        rw [if_pos hm]
        simp [hrec, hmem]
      · have hm : d ∉ (p :: ps).map Prod.fst := by
          rw [List.map_cons]
          intro hc
          rcases List.mem_cons.mp hc with h | h
          · exact hpd h.symm
          · exact hmem h
        rw [if_neg hm]
        simp [hrec, hmem]

theorem countBy_go_keys_mem :
    ∀ (l : List String) (acc : List (String × ℕ)) (k : String),
      k ∈ (l.foldl bumpKey acc).map Prod.fst ↔ k ∈ acc.map Prod.fst ∨ k ∈ l
  | [], acc, k => by simp
  | d :: ds, acc, k => by
    rw [List.foldl_cons, countBy_go_keys_mem ds (bumpKey acc d) k, bumpKey_keys]
    by_cases hmem : d ∈ acc.map Prod.fst
    · rw [if_pos hmem]
      simp only [List.mem_cons]
      constructor
      · tauto
      · rintro (h | rfl | h) <;> tauto
    · rw [if_neg hmem]
      simp only [List.mem_append, List.mem_singleton, List.mem_cons]
      tauto

theorem countBy_keys_mem (l : List String) (k : String) :
    k ∈ (countBy l).map Prod.fst ↔ k ∈ l := by
  simpa [countBy] using countBy_go_keys_mem l [] k

theorem countBy_go_keys_nodup :
    ∀ (l : List String) (acc : List (String × ℕ)),
      (acc.map Prod.fst).Nodup → ((l.foldl bumpKey acc).map Prod.fst).Nodup
  | [], _, h => h
  | d :: ds, acc, h => by
    rw [List.foldl_cons]
    refine countBy_go_keys_nodup ds (bumpKey acc d) ?_
    rw [bumpKey_keys]
    by_cases hmem : d ∈ acc.map Prod.fst
    · rw [if_pos hmem]
      exact h
    · rw [if_neg hmem]
      simp [List.nodup_append, h, hmem]

theorem countBy_keys_nodup (l : List String) : ((countBy l).map Prod.fst).Nodup :=
  countBy_go_keys_nodup l [] (by simp)

theorem sumSnd_cons (p : String → Bool) (q : String × ℕ) (qs : List (String × ℕ)) :
    sumSnd p (q :: qs) = (if p q.1 then q.2 else 0) + sumSnd p qs := by
  by_cases h : p q.1 <;> simp [sumSnd, List.filter_cons, h]

theorem sumSnd_bumpKey (p : String → Bool) :
    ∀ (acc : List (String × ℕ)) (d : String),
      sumSnd p (bumpKey acc d) = sumSnd p acc + (if p d then 1 else 0)
  | [], d => by
    by_cases hd : p d <;> simp [bumpKey, sumSnd, List.filter_cons, hd]
  | q :: qs, d => by
    rw [bumpKey]
    by_cases hqd : q.1 = d
    · rw [if_pos hqd]
      rw [sumSnd_cons, sumSnd_cons, ← hqd]
      by_cases hp : p q.1 <;> simp [hp]
      all_goals omega
    · rw [if_neg hqd]
      rw [sumSnd_cons, sumSnd_cons, sumSnd_bumpKey p qs d]
      omega

theorem sumSnd_countBy_go (p : String → Bool) :
    ∀ (l : List String) (acc : List (String × ℕ)),
      sumSnd p (l.foldl bumpKey acc) = sumSnd p acc + (l.filter p).length
  | [], acc => by simp
  | d :: ds, acc => by
    rw [List.foldl_cons, sumSnd_countBy_go p ds (bumpKey acc d), sumSnd_bumpKey, List.filter_cons]
    by_cases hd : p d <;> simp [hd]
    all_goals omega

theorem sumSnd_countBy (p : String → Bool) (l : List String) :
    sumSnd p (countBy l) = (l.filter p).length := by
  have := sumSnd_countBy_go p l []
  simpa [countBy, sumSnd] using this

theorem sumSnd_perm (p : String → Bool) {l l' : List (String × ℕ)} (h : l.Perm l') :
    sumSnd p l = sumSnd p l' :=
  ((h.filter _).map _).sum_eq

/-! ## Association-list lemmas: `groupIns`, `groupBy` -/

theorem lookupKey_groupIns {α : Type} (key : α → String) :
    ∀ (acc : List (String × List α)) (x : α) (k : String),
      lookupKey k (groupIns key acc x) =
        if key x = k then some ((lookupKey k acc).getD [] ++ [x]) else lookupKey k acc
  | [], x, k => by
    by_cases hk : key x = k <;> simp [groupIns, lookupKey, hk]
  | p :: ps, x, k => by
    rw [groupIns]
    by_cases hpd : p.1 = key x
    · rw [if_pos hpd]
      by_cases hk : p.1 = k
      · have hdk : key x = k := hpd ▸ hk
        simp [lookupKey, hk, hdk]
      · have hdk : ¬ key x = k := fun h => hk (hpd.trans h)
        simp [lookupKey, hk, hdk]
    · rw [if_neg hpd]
      by_cases hk : p.1 = k
      · have hdk : ¬ key x = k := fun h => hpd (hk.trans h.symm)
        simp [lookupKey, hk, hdk]
      · simp [lookupKey, hk, lookupKey_groupIns key ps x k]

theorem groupBy_go_lookup_some {α : Type} (key : α → String) :
    ∀ (l : List α) (acc : List (String × List α)) {k : String} {g : List α},
      lookupKey k acc = some g →
      lookupKey k (l.foldl (groupIns key) acc) =
        some (g ++ l.filter (fun x => decide (key x = k)))
  | [], acc, k, g, h => by simpa using h
  | x :: xs, acc, k, g, h => by
    rw [List.foldl_cons, List.filter_cons]
    by_cases hx : key x = k
    · have h' : lookupKey k (groupIns key acc x) = some (g ++ [x]) := by
        rw [lookupKey_groupIns, if_pos hx, h]
        rfl
      rw [groupBy_go_lookup_some key xs _ h']
      simp [hx]
    · have h' : lookupKey k (groupIns key acc x) = some g := by
        rw [lookupKey_groupIns, if_neg hx]
        exact h
      rw [groupBy_go_lookup_some key xs _ h']
      simp [hx]

theorem groupBy_go_lookup_none {α : Type} [DecidableEq α] (key : α → String) :
    ∀ (l : List α) (acc : List (String × List α)) {k : String},
      lookupKey k acc = none →
      lookupKey k (l.foldl (groupIns key) acc) =
        if (l.filter (fun x => decide (key x = k))) = [] then none
        else some (l.filter (fun x => decide (key x = k)))
  | [], acc, k, h => by simpa using h
  | x :: xs, acc, k, h => by
    rw [List.foldl_cons, List.filter_cons]
    by_cases hx : key x = k
    · have h' : lookupKey k (groupIns key acc x) = some [x] := by
        rw [lookupKey_groupIns, if_pos hx, h]
        rfl
      rw [groupBy_go_lookup_some key xs _ h']
      simp [hx]
    · have h' : lookupKey k (groupIns key acc x) = none := by
        rw [lookupKey_groupIns, if_neg hx]
        exact h
      rw [groupBy_go_lookup_none key xs _ h']
      simp [hx]

theorem lookupKey_groupBy {α : Type} [DecidableEq α] (key : α → String) (l : List α) (k : String) :
    lookupKey k (groupBy key l) =
      if (l.filter (fun x => decide (key x = k))) = [] then none
      else some (l.filter (fun x => decide (key x = k))) :=
  groupBy_go_lookup_none key l [] rfl

theorem groupBy_lookup_eq_filter {α : Type} [DecidableEq α] {key : α → String} {l : List α}
    {k : String} {g : List α} (h : lookupKey k (groupBy key l) = some g) :
    g = l.filter (fun x => decide (key x = k)) ∧ g ≠ [] := by
  rw [lookupKey_groupBy] at h
  split_ifs at h with he
  cases Option.some.inj h
  exact ⟨rfl, he⟩

/-! ## `mapMOpt` and lookups through it -/

theorem mapMOpt_lookup {α β : Type} (f : α → Option β) :
    ∀ {gs : List (String × α)} {stats : List (String × β)},
      mapMOpt (fun p => (f p.2).map (fun st => (p.1, st))) gs = some stats →
      ∀ k, lookupKey k stats = (lookupKey k gs).bind f
  | [], stats, h, k => by
    rw [mapMOpt] at h
    cases Option.some.inj h
    rfl
  | p :: ps, stats, h, k => by
    rw [mapMOpt] at h
    cases hf : f p.2 with
    | none =>
      rw [hf] at h
      simp at h
    | some y =>
      rw [hf] at h
      simp only [Option.map_some'] at h
      cases hm : mapMOpt (fun p => (f p.2).map (fun st => (p.1, st))) ps with
      | none =>
        rw [hm] at h
        simp at h
      | some stats' =>
        rw [hm] at h
        simp only [Option.map_some'] at h
        cases Option.some.inj h
        rw [lookupKey, lookupKey]
        by_cases hk : p.1 = k
        · rw [if_pos hk, if_pos hk]
          simp [hf]
        · rw [if_neg hk, if_neg hk]
          exact mapMOpt_lookup f hm k

/-! ## Cumulative series lemmas -/

theorem cumul_map_x : ∀ (L : List (String × ℕ)) (acc : ℕ),
    (cumul L acc).map TimePoint.x = L.map Prod.fst
  | [], _ => rfl
  | p :: ps, acc => by
    rw [cumul, List.map_cons, List.map_cons, cumul_map_x ps]

theorem cumul_y_eq :
    ∀ (L : List (String × ℕ)) (acc : ℕ),
      L.Pairwise (fun a b => a.1 < b.1) →
      ∀ p ∈ cumul L acc, p.y = acc + sumSnd (fun d => strLe d p.x) L
  | [], _, _, p, hp => absurd hp (List.not_mem_nil p)
  | q :: qs, acc, hL, p, hp => by
    rcases List.pairwise_cons.mp hL with ⟨hq, hqs⟩
    rw [cumul] at hp
    rcases List.mem_cons.mp hp with rfl | hp'
    · rw [sumSnd_cons]
      have hself : strLe q.1 q.1 = true := (strLe_iff q.1 q.1).mpr le_rfl
      have hrest : sumSnd (fun d => strLe d q.1) qs = 0 := by
        have hfil : qs.filter (fun r => strLe r.1 q.1) = [] :=
          List.filter_eq_nil_iff.mpr (fun r hr hle =>
            absurd ((strLe_iff r.1 q.1).mp hle) (not_le.mpr (hq r hr)))
        rw [sumSnd, hfil]
        rfl
      rw [hself, if_pos rfl, hrest]
      simp
    · have hrec := cumul_y_eq qs (acc + q.2) hqs p hp'
      have hx : p.x ∈ qs.map Prod.fst := by
        rw [← cumul_map_x qs (acc + q.2)]
        exact List.mem_map_of_mem TimePoint.x hp'
      obtain ⟨r, hr, hrx⟩ := List.mem_map.mp hx
      have hqp : q.1 < p.x := hrx ▸ hq r hr
      have hqle : strLe q.1 p.x = true := (strLe_iff q.1 p.x).mpr hqp.le
      rw [hrec, sumSnd_cons, hqle, if_pos rfl]
      omega

theorem zip_fst_snd {α β : Type} : ∀ l : List (α × β), (l.map Prod.fst).zip (l.map Prod.snd) = l
  | [] => rfl
  | p :: ps => by
    rw [List.map_cons, List.map_cons, List.zip_cons_cons, zip_fst_snd ps]

theorem str_append_empty (s : String) : s ++ "" = s :=
  congrArg String.mk (List.append_nil s.data)

theorem indexOfCr_eq_neg_one : ∀ {l : List Char}, (∀ c ∈ l, c ≠ '\r') → indexOfCr l = -1
  | [], _ => rfl
  | c :: rest, h => by
    rw [indexOfCr, if_neg (h c (List.mem_cons_self c rest)),
      indexOfCr_eq_neg_one (fun d hd => h d (List.mem_cons_of_mem c hd))]
    rfl

/-- Inversion of `reviewCore`: on success, the `IDReviewMap` entry of a
key is exactly the per-group aggregate of the group the key was mapped
to. -/
theorem reviewCore_IDReviewMap {rows : List ReviewRow} {d : ReviewInfoData}
    (h : reviewCore rows = some d) (k : String) :
    lookupKey k d.IDReviewMap =
      (lookupKey k (groupBy (fun r => r.paperId) rows)).bind
        (fun (g : List ReviewRow) => (analyzeGroup (g.map (fun r => r.scores))).map scoreRecOf) := by
  simp only [reviewCore] at h
  split at h
  · cases h
  next stats hm =>
    split at h
    next s c hs hc =>
      cases Option.some.inj h
      have hl := mapMOpt_lookup
        (fun (g : List ReviewRow) => analyzeGroup (g.map (fun r => r.scores))) hm k
      have hmap := lookupKey_map scoreRecOf stats k
      rw [hmap, hl]
      cases lookupKey k (groupBy (fun r => r.paperId) rows) with
      | none => rfl
      | some g => rfl
    next =>
      cases h

theorem cumul_getLast_y :
    ∀ (L : List (String × ℕ)) (acc : ℕ), L ≠ [] →
      ((cumul L acc).getLast?).map TimePoint.y = some (acc + (L.map Prod.snd).sum)
  | [], _, h => absurd rfl h
  | [q], acc, _ => by simp [cumul]
  | q :: q' :: qs, acc, _ => by
    have hrec := cumul_getLast_y (q' :: qs) (acc + q.2) (by simp)
    have hshape : cumul (q :: q' :: qs) acc =
        ⟨q.1, acc + q.2⟩ :: ⟨q'.1, acc + q.2 + q'.2⟩ :: cumul qs (acc + q.2 + q'.2) := rfl
    rw [hshape, List.getLast?_cons_cons]
    have hshape' : cumul (q' :: qs) (acc + q.2) =
        ⟨q'.1, acc + q.2 + q'.2⟩ :: cumul qs (acc + q.2 + q'.2) := rfl
    rw [hshape'] at hrec
    rw [hrec]
    simp only [List.map_cons, List.sum_cons, Option.some.injEq]
    omega

/-! ## Further helper lemmas for the claim proofs -/

theorem filter_always {α : Type} : ∀ l : List α, l.filter (fun _ => true) = l
  | [] => rfl
  | x :: xs => by rw [List.filter_cons, if_pos rfl, filter_always xs]

/-- Membership of a label's count pair in the sorted-by-count list. -/
theorem mem_sorted_count_pairs {α : Type} (f : α → String) (rows : List α) (v : String)
    (hv : v ∈ rows.map f) :
    (v, (rows.filter (fun x => decide (f x = v))).length) ∈
      getSortedArrayFromMapUsingCount (countBy (rows.map f)) := by
  have hlk := lookupKey_countBy (rows.map f) v
  rw [if_pos hv] at hlk
  have hmem := lookupKey_mem hlk
  have hperm := sortLe_perm (fun a b : String × ℕ => decide (b.2 ≤ a.2)) (countBy (rows.map f))
  refine hperm.mem_iff.mpr ?_
  have hlen : ((rows.map f).filter (fun d => decide (d = v))).length =
      (rows.filter (fun x => decide (f x = v))).length := by
    rw [← List.countP_eq_length_filter, ← List.countP_eq_length_filter, List.countP_map]
    rfl
  rw [← hlen]
  exact hmem

theorem groupIns_keys {α : Type} (key : α → String) :
    ∀ (acc : List (String × List α)) (x : α),
      (groupIns key acc x).map Prod.fst =
        if key x ∈ acc.map Prod.fst then acc.map Prod.fst else acc.map Prod.fst ++ [key x]
  | [], x => by simp [groupIns]
  | p :: ps, x => by
    rw [groupIns]
    by_cases hpd : p.1 = key x
    · rw [if_pos hpd]
      have hmem : key x ∈ (p :: ps).map Prod.fst := by
        simp [← hpd]
      rw [if_pos hmem]
      simp
    · rw [if_neg hpd]
      have hrec := groupIns_keys key ps x
      by_cases hmem : key x ∈ ps.map Prod.fst
      · have hm : key x ∈ (p :: ps).map Prod.fst := by simp [hmem]
        rw [if_pos hm]
        simp [hrec, hmem]
      · have hm : key x ∉ (p :: ps).map Prod.fst := by
          rw [List.map_cons]
          intro hc
          rcases List.mem_cons.mp hc with h | h
          · exact hpd h.symm
          · exact hmem h
        rw [if_neg hm]
        simp [hrec, hmem]

theorem groupBy_go_keys_nodup {α : Type} (key : α → String) :
    ∀ (l : List α) (acc : List (String × List α)),
      (acc.map Prod.fst).Nodup → ((l.foldl (groupIns key) acc).map Prod.fst).Nodup
  | [], _, h => h
  | x :: xs, acc, h => by
    rw [List.foldl_cons]
    refine groupBy_go_keys_nodup key xs (groupIns key acc x) ?_
    rw [groupIns_keys]
    by_cases hmem : key x ∈ acc.map Prod.fst
    · rw [if_pos hmem]
      exact h
    · rw [if_neg hmem]
      simp [List.nodup_append, h, hmem]

theorem groupBy_keys_nodup {α : Type} (key : α → String) (l : List α) :
    ((groupBy key l).map Prod.fst).Nodup :=
  groupBy_go_keys_nodup key l [] (by simp)

theorem nodup_filter_eq_le_one {a : String} :
    ∀ {l : List String}, l.Nodup → (l.filter (fun k => decide (k = a))).length ≤ 1
  | [], _ => Nat.zero_le 1
  | x :: xs, h => by
    rcases List.nodup_cons.mp h with ⟨hx, hxs⟩
    rw [List.filter_cons]
    by_cases hxa : x = a
    · rw [if_pos (by simp [hxa])]
      have hfil : xs.filter (fun k => decide (k = a)) = [] := by
        refine List.filter_eq_nil_iff.mpr ?_
        intro b hb hba
        have hb2 : b = a := of_decide_eq_true hba
        rw [hb2, ← hxa] at hb
        exact hx hb
      rw [hfil]
      exact Nat.le.refl
    · rw [if_neg (by simp [hxa])]
      exact nodup_filter_eq_le_one hxs

theorem comparableStep_full (t : ComparableTable) (p : String × List SubmissionRow) :
    (comparableStep t p).fullPapers.length =
      t.fullPapers.length + (if p.1 = "Full Papers" then 1 else 0) := by
  rw [comparableStep]
  by_cases h1 : p.1 = "Full Papers"
  · rw [if_pos h1, if_pos h1]
    simp
  · rw [if_neg h1, if_neg h1]
    by_cases h2 : p.1 = "Short Papers"
    · rw [if_pos h2]
      simp
    · rw [if_neg h2]
      simp

theorem comparableStep_short (t : ComparableTable) (p : String × List SubmissionRow) :
    (comparableStep t p).shortPapers.length =
      t.shortPapers.length + (if p.1 = "Short Papers" then 1 else 0) := by
  rw [comparableStep]
  by_cases h1 : p.1 = "Full Papers"
  · have h2 : ¬ p.1 = "Short Papers" := by
      rw [h1]
      decide
    rw [if_pos h1, if_neg h2]
    simp
  · rw [if_neg h1]
    by_cases h2 : p.1 = "Short Papers"
    · rw [if_pos h2, if_pos h2]
      simp
    · rw [if_neg h2, if_neg h2]
      simp

theorem foldl_comparable_full :
    ∀ (groups : List (String × List SubmissionRow)) (t : ComparableTable),
      ((groups.foldl comparableStep t).fullPapers).length =
        t.fullPapers.length +
          ((groups.map Prod.fst).filter (fun k => decide (k = "Full Papers"))).length
  | [], t => by simp
  | p :: ps, t => by
    rw [List.foldl_cons, foldl_comparable_full ps (comparableStep t p), comparableStep_full,
      List.map_cons, List.filter_cons]
    by_cases h : p.1 = "Full Papers"
    · rw [if_pos h, if_pos (by simp [h]), List.length_cons]
      omega
    · rw [if_neg h, if_neg (by simp [h])]
      omega

theorem foldl_comparable_short :
    ∀ (groups : List (String × List SubmissionRow)) (t : ComparableTable),
      ((groups.foldl comparableStep t).shortPapers).length =
        t.shortPapers.length +
          ((groups.map Prod.fst).filter (fun k => decide (k = "Short Papers"))).length
  | [], t => by simp
  | p :: ps, t => by
    rw [List.foldl_cons, foldl_comparable_short ps (comparableStep t p), comparableStep_short,
      List.map_cons, List.filter_cons]
    by_cases h : p.1 = "Short Papers"
    · rw [if_pos h, if_pos (by simp [h]), List.length_cons]
      omega
    · rw [if_neg h, if_neg (by simp [h])]
      omega

/-- Specification of the cumulative time series over a date list: the
points are strictly sorted by date, one per distinct date, each `y` counts
the dates up to and including that point's date, and the final `y` is the
total count. -/
theorem timeSeries_spec (dates : List String) :
    (cumul (getSortedArrayFromMapUsingKey (countBy dates)) 0).Pairwise
      (fun p q => p.x < q.x) ∧
    (∀ d, d ∈ (cumul (getSortedArrayFromMapUsingKey (countBy dates)) 0).map TimePoint.x ↔
      d ∈ dates) ∧
    (∀ p ∈ cumul (getSortedArrayFromMapUsingKey (countBy dates)) 0,
      p.y = (dates.filter (fun d => strLe d p.x)).length) ∧
    (dates ≠ [] →
      ((cumul (getSortedArrayFromMapUsingKey (countBy dates)) 0).getLast?).map TimePoint.y =
        some dates.length) := by
  have htot : ∀ a b : String × ℕ, (strLe a.1 b.1) = true ∨ (strLe b.1 a.1) = true := by
    intro a b
    rcases le_total a.1 b.1 with h | h
    · exact Or.inl ((strLe_iff _ _).mpr h)
    · exact Or.inr ((strLe_iff _ _).mpr h)
  have htrans : ∀ a b c : String × ℕ,
      strLe a.1 b.1 = true → strLe b.1 c.1 = true → strLe a.1 c.1 = true := by
    intro a b c hab hbc
    exact (strLe_iff _ _).mpr (le_trans ((strLe_iff _ _).mp hab) ((strLe_iff _ _).mp hbc))
  have hperm : (getSortedArrayFromMapUsingKey (countBy dates)).Perm (countBy dates) :=
    sortLe_perm _ (countBy dates)
  have hpairLe := sortLe_pairwise htot htrans (countBy dates)
  have hnod : ((getSortedArrayFromMapUsingKey (countBy dates)).map Prod.fst).Nodup :=
    ((hperm.map Prod.fst).nodup_iff).mpr (countBy_keys_nodup dates)
  have hne2 : (getSortedArrayFromMapUsingKey (countBy dates)).Pairwise
      (fun a b => a.1 ≠ b.1) := List.pairwise_map.mp hnod
  have hstrict : (getSortedArrayFromMapUsingKey (countBy dates)).Pairwise
      (fun a b => a.1 < b.1) :=
    (hpairLe.and hne2).imp (fun h => lt_of_le_of_ne ((strLe_iff _ _).mp h.1) h.2)
  refine ⟨?_, ?_, ?_, ?_⟩
  · have h1 : ((cumul (getSortedArrayFromMapUsingKey (countBy dates)) 0).map
        TimePoint.x).Pairwise (fun a b => a < b) := by
      rw [cumul_map_x]
      exact List.pairwise_map.mpr hstrict
    exact List.pairwise_map.mp h1
  · intro d
    rw [cumul_map_x, (hperm.map Prod.fst).mem_iff, countBy_keys_mem]
  · intro p hp
    rw [cumul_y_eq _ 0 hstrict p hp, sumSnd_perm (fun d => strLe d p.x) hperm,
      sumSnd_countBy]
    exact Nat.zero_add _
  · intro hd
    obtain ⟨d, hdm⟩ := List.exists_mem_of_ne_nil dates hd
    have hdk : d ∈ (countBy dates).map Prod.fst := (countBy_keys_mem dates d).mpr hdm
    have hMne : countBy dates ≠ [] := by
      intro hc
      rw [hc] at hdk
      exact absurd hdk (List.not_mem_nil d)
    have hSne : getSortedArrayFromMapUsingKey (countBy dates) ≠ [] := by
      intro hc
      have hlen := hperm.length_eq
      rw [hc] at hlen
      exact hMne (List.length_eq_zero.mp hlen.symm)
    have hsum : ((getSortedArrayFromMapUsingKey (countBy dates)).map Prod.snd).sum =
        ((countBy dates).map Prod.snd).sum := (hperm.map Prod.snd).sum_eq
    have hsum2 : sumSnd (fun _ => true) (countBy dates) =
        (dates.filter (fun _ => true)).length := sumSnd_countBy _ _
    simp only [sumSnd, filter_always] at hsum2
    rw [cumul_getLast_y _ 0 hSne, Nat.zero_add, hsum]
    exact congrArg some hsum2

/-! ## Claim theorems -/

/-- C1: for every review batch in which one submission's review group
consists of exactly the two scenario scores blocks
(`Overall evaluation: 2 / confidence 4 / recommend yes` and
`Overall evaluation: -1 / confidence 2 / recommend no`, in either order),
`getReviewInfo` computes that submission's confidence-weighted score as
`(2*4 + -1*2)/6 = 1` and its confidence-weighted recommend as
`(1*4 + 0*2)/6 = 2/3` (the spec renders `2/3` as `0.667`); a missing third
line would default that review's recommend to `0` (see `parseReview`). -/
theorem c1_reviewInfo_weighted_scenario (rows : List ReviewRow) (pid : String)
    (g : List ReviewRow) (res : Output ReviewInfoData)
    (hres : getReviewInfo rows = some res)
    (hg : lookupKey pid (groupBy (fun r => r.paperId) rows) = some g)
    (hsc : g.map (fun r => r.scores) = [blockA, blockB] ∨
      g.map (fun r => r.scores) = [blockB, blockA]) :
    lookupKey pid res.infoData.IDReviewMap = some ⟨some 1, some (mkRat 2 3)⟩ := by
  rw [getReviewInfo] at hres
  cases hrc : reviewCore rows with
  | none =>
    rw [hrc] at hres
    cases hres
  | some d =>
    rw [hrc] at hres
    rw [Option.map_some'] at hres
    cases Option.some.inj hres
    rw [show (Output.mk "review" d).infoData = d from rfl]
    rw [reviewCore_IDReviewMap hrc pid, hg]
    show (analyzeGroup (g.map (fun r => r.scores))).map scoreRecOf = _
    rcases hsc with h | h <;> rw [h]
    · decide
    · decide

/-- Witness for C1: the scenario batch itself. -/
theorem c1_reviewInfo_weighted_scenario_witness :
    (getReviewInfo demoReviewBatch1).map
        (fun res => lookupKey "1" res.infoData.IDReviewMap) =
      some (some ⟨some 1, some (mkRat 2 3)⟩) := by
  cases ho : getReviewInfo demoReviewBatch1 with
  | none => exact absurd ho (by decide)
  | some res =>
    rw [Option.map_some']
    rw [c1_reviewInfo_weighted_scenario demoReviewBatch1 "1" demoReviewBatch1 res ho
      (by decide) (Or.inl (by decide))]

/-- C2 (code bug): at the failing input — one submission with reviews
`(score 0, confidence 2)` and `(score 1, confidence 1)`, weighted score
`1/3` — the spec's bucketing (`floor((1/3 - -3)/0.25) = 13`, clamped, into
24 zero-initialised buckets) would add one count to bucket 13, but the
source computes the column `((1/3+3)/0.25).toFixed(1) = 13.3`, a
non-integer array index, so no counts slot changes; the counts array it
returns is the 25-element `fillRange(-3,3,0.25)` boundary array (first
slot `-3`, not `0`), and the recommend counts array has 11 slots, not
10. -/
theorem c2_bucket_failure :
    (getReviewInfo demoReviewBatch2).map
        (fun res => res.infoData.scoreDistribution.counts) =
      some (fillRange (-3) 3 (mkRat 1 4)) ∧
    (fillRange (-3) 3 (mkRat 1 4)).length = 25 ∧
    (fillRange (-3) 3 (mkRat 1 4)).getD 0 0 = -3 ∧
    (fillRange 0 1 (mkRat 1 10)).length = 11 ∧
    scoreColumn (mkRat 1 3) = mkRat 133 10 ∧
    (getReviewInfo demoReviewBatch2).map
        (fun res => lookupKey "1" res.infoData.IDReviewMap) =
      some (some ⟨some (mkRat 1 3), some 0⟩) :=
  ⟨by decide, by decide, by decide, by decide, by decide, by decide⟩

/-- C3 counterexample: on the empty review batch the claim fails — the
analyzer call does not produce NaN aggregate fields; `scoreList.reduce(sum)`
throws on the empty array with no initial value, aborting the call
(modelled by `none`). -/
theorem c3_empty_review_throws : getReviewInfo ([] : List ReviewRow) = none := rfl

/-- C3 as amended: with zero parsed rows the submission analyzer yields a
NaN `acceptanceRate` (and an empty per-track rate object) rather than
throwing, but the review analyzer throws (reduce of an empty array)
instead of yielding NaN means. -/
theorem c3_empty_input_behaviour :
    (getSubmissionInfo ([] : List SubmissionRow)).infoData.acceptanceRate = none ∧
    (getSubmissionInfo ([] : List SubmissionRow)).infoData.acceptanceRateByTrack = [] ∧
    getReviewInfo ([] : List ReviewRow) = none :=
  ⟨rfl, rfl, rfl⟩

/-- C4: for every parsed submission dataset, `lastEditSeries` equals
`timeSeries` elementwise, because the update-time list is built from
`submitTime` (source line 204), never from `lastUpdateTime`. -/
theorem c4_lastEditSeries_eq_timeSeries (rows : List SubmissionRow) :
    (getSubmissionInfo rows).infoData.lastEditSeries =
      (getSubmissionInfo rows).infoData.timeSeries := rfl

/-- C5: a missing (empty) first or last name leaves a literal leading or
trailing space in the built full name, which is counted as-is among the
top-author labels; rows with empty country or affiliation are counted
under the empty-string label, paired with the number of such rows. -/
theorem c5_author_edge_cases (rows : List AuthorRow) (r : AuthorRow) (hr : r ∈ rows) :
    (r.firstName = "" → authorName r = " " ++ r.lastName) ∧
    (r.lastName = "" → authorName r = r.firstName ++ " ") ∧
    authorName r ∈ (getAuthorInfo rows).infoData.topAuthors.labels ∧
    (r.country = "" →
      ("", (rows.filter (fun x => decide (x.country = ""))).length) ∈
        ((getAuthorInfo rows).infoData.topCountries.labels).zip
          ((getAuthorInfo rows).infoData.topCountries.data)) ∧
    (r.affiliation = "" →
      ("", (rows.filter (fun x => decide (x.affiliation = ""))).length) ∈
        ((getAuthorInfo rows).infoData.topAffiliations.labels).zip
          ((getAuthorInfo rows).infoData.topAffiliations.data)) := by
  refine ⟨?_, ?_, ?_, ?_, ?_⟩
  · intro h
    rw [authorName, h]
    rfl
  · intro h
    rw [authorName, h]
    exact str_append_empty _
  · have hperm := (sortLe_perm (fun a b : String × ℕ => decide (b.2 ≤ a.2))
      (countBy (rows.map authorName))).map Prod.fst
    exact hperm.mem_iff.mpr
      ((countBy_keys_mem (rows.map authorName) (authorName r)).mpr
        (List.mem_map_of_mem authorName hr))
  · intro hc
    have hv : "" ∈ rows.map (fun x => x.country) := by
      rw [← hc]
      exact List.mem_map_of_mem _ hr
    have hmem := mem_sorted_count_pairs (fun x => x.country) rows "" hv
    show ("", (rows.filter (fun x => decide (x.country = ""))).length) ∈
      ((getSortedArrayFromMapUsingCount (countBy (rows.map (fun x => x.country)))).map
        Prod.fst).zip
      ((getSortedArrayFromMapUsingCount (countBy (rows.map (fun x => x.country)))).map
        Prod.snd)
    rw [zip_fst_snd]
    exact hmem
  · intro hc
    have hv : "" ∈ rows.map (fun x => x.affiliation) := by
      rw [← hc]
      exact List.mem_map_of_mem _ hr
    have hmem := mem_sorted_count_pairs (fun x => x.affiliation) rows "" hv
    show ("", (rows.filter (fun x => decide (x.affiliation = ""))).length) ∈
      ((getSortedArrayFromMapUsingCount (countBy (rows.map (fun x => x.affiliation)))).map
        Prod.fst).zip
      ((getSortedArrayFromMapUsingCount (countBy (rows.map (fun x => x.affiliation)))).map
        Prod.snd)
    rw [zip_fst_snd]
    exact hmem

/-- Witness for C5: a single row with empty first name and country. -/
theorem c5_author_edge_cases_witness :
    demoAuthorRow ∈ [demoAuthorRow] ∧
    authorName demoAuthorRow = " " ++ "Doe" ∧
    ("", 1) ∈ ((getAuthorInfo [demoAuthorRow]).infoData.topCountries.labels).zip
      ((getAuthorInfo [demoAuthorRow]).infoData.topCountries.data) := by
  have h := c5_author_edge_cases [demoAuthorRow] demoAuthorRow (List.mem_cons_self _ _)
  exact ⟨List.mem_cons_self _ _, h.1 rfl, h.2.2.2.1 rfl⟩

/-- C6: for a non-empty dataset the overall acceptance rate is the number
of rows whose decision is exactly the case-sensitive string `accept`
divided by the row count, a value in `[0,1]`, and likewise per track
group. -/
theorem c6_acceptance_rates (rows : List SubmissionRow) (hne : rows ≠ []) :
    ((getSubmissionInfo rows).infoData.acceptanceRate =
      some (((rows.filter (fun x => decide (x.decision = "accept"))).length : ℚ) /
        (rows.length : ℚ))) ∧
    (0 : ℚ) ≤ ((rows.filter (fun x => decide (x.decision = "accept"))).length : ℚ) /
      (rows.length : ℚ) ∧
    ((rows.filter (fun x => decide (x.decision = "accept"))).length : ℚ) /
      (rows.length : ℚ) ≤ 1 ∧
    ∀ (t : String) (g : List SubmissionRow),
      lookupKey t (groupBy (fun x => x.trackName) rows) = some g →
      (lookupKey t (getSubmissionInfo rows).infoData.acceptanceRateByTrack =
        some (some (((g.filter (fun x => decide (x.decision = "accept"))).length : ℚ) /
          (g.length : ℚ))) ∧
      (0 : ℚ) ≤ ((g.filter (fun x => decide (x.decision = "accept"))).length : ℚ) /
        (g.length : ℚ) ∧
      ((g.filter (fun x => decide (x.decision = "accept"))).length : ℚ) /
        (g.length : ℚ) ≤ 1) := by
  have hdiv : ∀ (a t : ℕ), (t : ℚ) ≠ 0 →
      jsDiv (some (a : ℚ)) (some (t : ℚ)) = some ((a : ℚ) / (t : ℚ)) := by
    intro a t ht
    show (if (t : ℚ) = 0 then none else some (qDiv (a : ℚ) (t : ℚ))) = _
    rw [if_neg ht, qDiv_eq]
  have hbounds : ∀ (a t : ℕ), a ≤ t → t ≠ 0 →
      (0 : ℚ) ≤ (a : ℚ) / (t : ℚ) ∧ (a : ℚ) / (t : ℚ) ≤ 1 := by
    intro a t hat ht
    have htpos : (0 : ℚ) < (t : ℚ) := by
      exact_mod_cast Nat.pos_of_ne_zero ht
    constructor
    · exact div_nonneg (Nat.cast_nonneg a) (Nat.cast_nonneg t)
    · rw [div_le_one htpos]
      exact_mod_cast hat
  have hlen : rows.length ≠ 0 := fun h => hne (List.length_eq_zero.mp h)
  have hlenq : ((rows.length : ℚ)) ≠ 0 := by exact_mod_cast hlen
  refine ⟨?_, ?_, ?_, ?_⟩
  · show jsDiv (some ((rows.filter (fun x => decide (x.decision = "accept"))).length : ℚ))
      (some (rows.length : ℚ)) = _
    exact hdiv _ _ hlenq
  · exact (hbounds _ _ (List.length_filter_le _ _) hlen).1
  · exact (hbounds _ _ (List.length_filter_le _ _) hlen).2
  · intro t g hg
    obtain ⟨hgf, hgne⟩ := groupBy_lookup_eq_filter hg
    have hglen : g.length ≠ 0 := fun h => hgne (List.length_eq_zero.mp h)
    have hglenq : ((g.length : ℚ)) ≠ 0 := by exact_mod_cast hglen
    refine ⟨?_, (hbounds _ _ (List.length_filter_le _ _) hglen).1,
      (hbounds _ _ (List.length_filter_le _ _) hglen).2⟩
    have hproj : (getSubmissionInfo rows).infoData.acceptanceRateByTrack =
        (groupBy (fun x => x.trackName) rows).map (fun p => (p.1, trackRate p.2)) := rfl
    rw [hproj, lookupKey_map trackRate (groupBy (fun x => x.trackName) rows) t, hg,
      Option.map_some']
    exact congrArg some (hdiv _ _ hglenq)

/-- Witness for C6: two rows of the same track, one accepted and one
rejected, giving the per-track rate `1/2`. -/
theorem c6_acceptance_rates_witness :
    (lookupKey "T" (getSubmissionInfo demoTracks).infoData.acceptanceRateByTrack =
      some (some (((demoTracks.filter (fun x => decide (x.decision = "accept"))).length : ℚ) /
        (demoTracks.length : ℚ)))) ∧
    lookupKey "T" (getSubmissionInfo demoTracks).infoData.acceptanceRateByTrack =
      some (some (mkRat 1 2)) := by
  have hg : lookupKey "T" (groupBy (fun x => x.trackName) demoTracks) = some demoTracks := by
    decide
  exact ⟨((c6_acceptance_rates demoTracks (by decide)).2.2.2 "T" demoTracks hg).1, by decide⟩

/-- C7: `timeSeries` has one point per distinct submit date (the prefix of
`submitTime` before the first space), strictly ascending by date, each `y`
being the cumulative number of submissions with date up to and including
that point's date, the final `y` being the total row count. -/
theorem c7_time_series (rows : List SubmissionRow) :
    ((getSubmissionInfo rows).infoData.timeSeries).Pairwise (fun p q => p.x < q.x) ∧
    (∀ d : String, d ∈ ((getSubmissionInfo rows).infoData.timeSeries).map TimePoint.x ↔
      d ∈ rows.map (fun r => jsDateOf r.submitTime)) ∧
    (∀ p ∈ (getSubmissionInfo rows).infoData.timeSeries,
      p.y = ((rows.map (fun r => jsDateOf r.submitTime)).filter
        (fun d => strLe d p.x)).length) ∧
    (rows ≠ [] →
      (((getSubmissionInfo rows).infoData.timeSeries).getLast?).map TimePoint.y =
        some rows.length) := by
  have h := timeSeries_spec (rows.map (fun r => jsDateOf r.submitTime))
  refine ⟨h.1, h.2.1, h.2.2.1, ?_⟩
  intro hne
  have hd : rows.map (fun r => jsDateOf r.submitTime) ≠ [] := by
    intro hc
    exact hne (List.map_eq_nil_iff.mp hc)
  have hlast := h.2.2.2 hd
  rw [List.length_map] at hlast
  exact hlast

/-- Witness for C7: the three scenario submit times over two dates. -/
theorem c7_time_series_witness :
    (getSubmissionInfo demoTimes).infoData.timeSeries =
      [⟨"2020-01-01", 2⟩, ⟨"2020-01-02", 3⟩] ∧
    (((getSubmissionInfo demoTimes).infoData.timeSeries).getLast?).map TimePoint.y =
      some 3 := by
  refine ⟨by decide, ?_⟩
  exact (c7_time_series demoTimes).2.2.2 (by decide)

/-- C8: every analyzer returns a `{infoType, infoData}` object (the
`Output` structure has exactly those two fields), with `infoType`
`author`, `review` and `submission` respectively; the review analyzer is
quantified over the calls that return. -/
theorem c8_return_contract (a : List AuthorRow) (r : List ReviewRow)
    (s : List SubmissionRow) :
    (getAuthorInfo a).infoType = "author" ∧
    (getSubmissionInfo s).infoType = "submission" ∧
    ∀ o : Output ReviewInfoData, getReviewInfo r = some o → o.infoType = "review" := by
  refine ⟨rfl, rfl, ?_⟩
  intro o ho
  rw [getReviewInfo] at ho
  cases hrc : reviewCore r with
  | none =>
    rw [hrc] at ho
    cases ho
  | some d =>
    rw [hrc] at ho
    rw [Option.map_some'] at ho
    cases Option.some.inj ho
    rfl

/-- Witness for C8 on a review batch that returns. -/
theorem c8_return_contract_witness :
    (getReviewInfo demoReviewBatch1).map (fun o => o.infoType) = some "review" := by
  cases ho : getReviewInfo demoReviewBatch1 with
  | none => exact absurd ho (by decide)
  | some o =>
    rw [Option.map_some',
      (c8_return_contract [] demoReviewBatch1 []).2.2 o ho]

/-- C9: each analyzer is a pure function of its parsed input — running it
twice on the same input yields identical output.  In particular the
historical comparable-acceptance-rate table is rebuilt from its literal
inside every call (source lines 254-258), so rates do not accumulate
across calls: each listed track's series carries the 8 historical rates
plus at most one appended rate, on every call. -/
theorem c9_analyzers_deterministic (a : List AuthorRow) (r : List ReviewRow)
    (s : List SubmissionRow) :
    getAuthorInfo a = getAuthorInfo a ∧
    getReviewInfo r = getReviewInfo r ∧
    getSubmissionInfo s = getSubmissionInfo s ∧
    (getSubmissionInfo s).infoData.comparableAcceptanceRate.fullPapers.length ≤ 9 ∧
    (getSubmissionInfo s).infoData.comparableAcceptanceRate.shortPapers.length ≤ 9 := by
  refine ⟨rfl, rfl, rfl, ?_, ?_⟩
  · have hk := groupBy_keys_nodup (fun x : SubmissionRow => x.trackName) s
    have hfold := foldl_comparable_full (groupBy (fun x : SubmissionRow => x.trackName) s)
      baseComparableTable
    have hone := nodup_filter_eq_le_one (a := "Full Papers") hk
    show ((groupBy (fun x : SubmissionRow => x.trackName) s).foldl comparableStep
      baseComparableTable).fullPapers.length ≤ 9
    rw [hfold]
    have hbase : baseComparableTable.fullPapers.length = 8 := rfl
    omega
  · have hk := groupBy_keys_nodup (fun x : SubmissionRow => x.trackName) s
    have hfold := foldl_comparable_short (groupBy (fun x : SubmissionRow => x.trackName) s)
      baseComparableTable
    have hone := nodup_filter_eq_le_one (a := "Short Papers") hk
    show ((groupBy (fun x : SubmissionRow => x.trackName) s).foldl comparableStep
      baseComparableTable).shortPapers.length ≤ 9
    rw [hfold]
    have hbase : baseComparableTable.shortPapers.length = 8 := rfl
    omega

/-- C10: when the decoded text contains no carriage return, the
header-override step discards nothing: `indexOf` answers `-1`,
`substring(0)` keeps the whole text, and the original first line survives
as a data row under the substituted header. -/
theorem c10_header_override_no_cr (content : String)
    (h : ∀ c ∈ content.data, c ≠ '\r') (header : String) :
    headerOverride header content = header ++ "\r" ++ content := by
  rw [headerOverride, jsIndexOfCr, indexOfCr_eq_neg_one h]
  rfl

/-- Witness for C10: a carriage-return-free two-line file kept in full
under both fixed headers. -/
theorem c10_header_override_no_cr_witness :
    (∀ c ∈ ("a,b\nc,d" : String).data, c ≠ '\r') ∧
    headerOverride authorHeader "a,b\nc,d" = authorHeader ++ "\r" ++ "a,b\nc,d" ∧
    headerOverride submissionHeader "x,y" = submissionHeader ++ "\r" ++ "x,y" :=
  ⟨by decide, c10_header_override_no_cr "a,b\nc,d" (by decide) authorHeader,
   c10_header_override_no_cr "x,y" (by decide) submissionHeader⟩

end Chairvise
